import Mathlib

/-!
Shallow embedding of the core of `ical-event-notes` (`src/main.ts`):
the instant normalizer (`normalizeDate`), the occurrence expander
(`expandRelevantEvents`), the relevance scorer (`eventRelevance`), the
relevant-events pipeline of the create-note-from-event command, and the
cache refresh (`IcalToEventsPlugin.refresh`).

Modelling conventions:
* A JavaScript number holding a time value is an `Int` (all time values in
  play are integral milliseconds); `NaN` is modelled as `Option.none` where
  it can arise (`getTime()` of an Invalid Date, arithmetic on it).
* A JS `Date` object is `Option Int`: `some t` is a valid date with time
  value `t`, `none` is an Invalid Date (whose `getTime()` is `NaN`).
* `undefined` is `Option.none` at the outer layer of each field.
* External collaborators (`new Date(string)` parsing, the ts-ics rule
  evaluator `extendByRecurrenceRule`, `Date.prototype.toISOString`,
  `requestUrl`, `convertIcsCalendar`) are parameters of the embedded
  functions, as the spec treats them (collaborator primitives).
-/

namespace IcalEventNotes

/-- `searchLookahead` (src/main.ts line 44): 24 hours in milliseconds. -/
def searchLookahead : Int := 24 * 60 * 60 * 1000

/-- `searchLookbehind` (src/main.ts line 45): 1 hour in milliseconds. -/
def searchLookbehind : Int := 60 * 60 * 1000

/-- `Number.MAX_VALUE`, the relevance of an ongoing event
(src/main.ts line 104).  The IEEE-754 double maximum is the exact integer
`(2 - 2 ^ (-52)) * 2 ^ 1023 = 2 ^ 1024 - 2 ^ 971`, written here as a
numeral so concrete pipeline runs evaluate cheaply; `maxValue_eq_pow`
below certifies the value. -/
def maxValue : Int := 179769313486231570814527423731704356798070567525844996598917476803157260780028538760589558632766878171540458953514382464234321326889464182768467546703537516986049910576551282076245490090389328944075868508455133942304583236903222948165808559332123348274797826204144723168738177180919299881250404026184124858368

/-- A value stored in a `start.date` / `end.date` field: either a native JS
`Date` (time value `some t`, or `none` for an Invalid Date), or a string
(the ts-ics types allow `Date | string`, and cached dates come back as ISO
strings after the settings round-trip through JSON). -/
inductive DateValue where
  | jsDate (time : Option Int)
  | str (s : String)
deriving DecidableEq

/-- The `{ date, ... }` object held in an event's `start` / `end` field.
`tzid` stands in for the ancillary metadata that the object spreads
(`{ ...event.start, date: ... }`) in the source copy along unchanged. -/
structure EventDateObj where
  date : Option DateValue
  tzid : Option String := none
deriving DecidableEq

/-- `CalendarSource` (src/main.ts lines 16-19). -/
structure CalendarSource where
  name : String
  url : String
deriving DecidableEq

/-- The recurrence rule is an opaque payload consumed only by the external
rule evaluator; modelled by its textual form. -/
abbrev RecurrenceRule := String

/-- `CachedEvent` (src/main.ts lines 21-23): a ts-ics `IcsEvent` tagged with
its calendar source, restricted to the fields the verified core touches.
`end` is written `«end»` because it is a Lean keyword. -/
structure CachedEvent where
  uid : String
  recurrenceId : Option String := none
  summary : Option String := none
  start : Option EventDateObj := none
  «end» : Option EventDateObj := none
  recurrenceRule : Option RecurrenceRule := none
  duration : Option String := none
  calendarSource : CalendarSource
deriving DecidableEq

/-- `normalizeDate` (src/main.ts lines 57-64).  `parse` models the platform
primitive `new Date(string).getTime()`, with `none` for `NaN`.  Input is
`Date | string | undefined`; output is `Date | undefined`: `some t` is a
`Date` with time value `t` (`some none` an Invalid Date), `none` is
`undefined`.  A `Date` input is returned as-is by the first branch; a string
is parsed and returned only when the parse is non-`NaN`; everything else
falls through to `undefined`. -/
def normalizeDate (parse : String → Option Int) :
    Option DateValue → Option (Option Int)
  | some (.jsDate t) => some t
  | some (.str s) =>
    match parse s with
    | some t => some (some t)
    | none => none
  | none => none

/-- The number the scorer extracts from a field:
`normalizeDate(event.start?.date)?.getTime()` (src/main.ts lines 99-100)
followed by the `!start` truthiness guard.  `undefined` and an Invalid
Date's `NaN` are both falsy, exactly like the number `0`; the first two are
collapsed to `none` here and the zero case is tested separately in
`eventRelevance`. -/
def timeNum (parse : String → Option Int) (field : Option EventDateObj) :
    Option Int :=
  (normalizeDate parse (field.bind (·.date))).bind id

/-- `eventRelevance` (src/main.ts lines 94-112).  `now.getTime()` is the
integer `now`; the two cutoffs are `now - searchLookbehind` and
`now + searchLookahead`.  `Math.floor((a)/1000/60)` on an integral
millisecond count is floor division by 60000, i.e. `Int.fdiv`. -/
def eventRelevance (parse : String → Option Int) (event : CachedEvent)
    (now : Int) : Int :=
  let nowMilis := now
  let cutoffLookbehind := nowMilis - searchLookbehind
  let cutoffLookahead := nowMilis + searchLookahead
  match timeNum parse event.start, timeNum parse event.«end» with
  | some start, some «end» =>
    if start = 0 ∨ «end» = 0 then -1
    else if start < nowMilis ∧ «end» > nowMilis then maxValue
    else if «end» < nowMilis ∧ «end» ≥ cutoffLookbehind then
      ((nowMilis - «end»).fdiv 60000)
    else if start > nowMilis ∧ start ≤ cutoffLookahead then
      ((start - nowMilis).fdiv 60000)
    else -1
  | _, _ => -1

/-- The comparator `(a, b) => relevanceA - relevanceB` of the pipeline's
sort, as the ordering relation it realizes on the scored pairs. -/
def relLE (p q : CachedEvent × Int) : Prop := p.2 ≤ q.2

instance : DecidableRel relLE := fun p q =>
  inferInstanceAs (Decidable (p.2 ≤ q.2))

instance : IsTotal (CachedEvent × Int) relLE :=
  ⟨fun p q => Int.le_total p.2 q.2⟩

instance : IsTrans (CachedEvent × Int) relLE :=
  ⟨fun _ _ _ => Int.le_trans⟩

/-- The relevant-events pipeline of the create-note-from-event command
(src/main.ts lines 158-162): score every cached event, keep those with
`relevance > 0`, sort ascending by relevance, project back to the events.
JS `Array.prototype.sort` is a stable sort; none of the verified properties
depends on the relative order of equal keys, so an insertion sort by the
same key embeds it. -/
def relevantEvents (parse : String → Option Int)
    (events : List CachedEvent) (now : Int) : List CachedEvent :=
  (((events.map (fun evnt => (evnt, eventRelevance parse evnt now))).filter
        (fun p => decide (p.2 > 0))).insertionSort relLE).map Prod.fst

/-- The TypeError thrown when expansion dereferences a missing start/end
(`event.end!.date.getTime()` with `end` undefined, `date` undefined, or
`date` a string, which has no `getTime`). -/
inductive ExpandError where
  | typeError
deriving DecidableEq

/-- `x.date.getTime()` on a start/end field, unguarded as in
src/main.ts lines 77 and 84: throws when the field or its `date` is absent
or the `date` is a string; an Invalid Date yields `NaN` (`none`). -/
def getTimeUnchecked : Option EventDateObj → Except ExpandError (Option Int)
  | some obj =>
    match obj.date with
    | some (.jsDate t) => .ok t
    | _ => .error .typeError
  | none => .error .typeError

/-- `NaN`-propagating subtraction of JS time values. -/
def jsSub : Option Int → Option Int → Option Int
  | some x, some y => some (x - y)
  | _, _ => none

/-- `NaN`-propagating addition of JS time values; `new Date(NaN)` is an
Invalid Date, i.e. `none` again. -/
def jsAdd : Option Int → Option Int → Option Int
  | some x, some y => some (x + y)
  | _, _ => none

/-- The occurrence record built at src/main.ts lines 80-87: the spread
copies every field of the series event and overrides `uid` (the
per-occurrence identity `(recurrenceId ?? uid) + "-" + ISO(date)`), `start`
(the rule-evaluator instant), `end` (`new Date(date.getTime() + duration)`,
an Invalid Date when the duration is `NaN`), and clears `recurrenceRule`
and `duration`.  On the non-throwing path `event.start` / `event.end` are
present, so the `getD` defaults are never reached. -/
def occurrenceOf (iso : Int → String) (event : CachedEvent)
    (eventDuration : Option Int) (date : Int) : CachedEvent :=
  { event with
    uid := (event.recurrenceId.getD event.uid) ++ "-" ++ iso date
    start := some { (event.start.getD { date := none }) with
                    date := some (.jsDate (some date)) }
    «end» := some { (event.«end».getD { date := none }) with
                    date := some (.jsDate (jsAdd (some date) eventDuration)) }
    recurrenceRule := none
    duration := none }

/-- The body of the occurrence `map` (src/main.ts lines 76-88): build one
occurrence of `event` at the rule-evaluator instant `date`.  The duration
`event.end!.date.getTime() - event.start.date.getTime()` is the part that
can throw. -/
def mkOccurrence (iso : Int → String) (event : CachedEvent) (date : Int) :
    Except ExpandError CachedEvent := do
  let endBase ← getTimeUnchecked event.«end»
  let startBase ← getTimeUnchecked event.start
  let eventDuration := jsSub endBase startBase
  .ok (occurrenceOf iso event eventDuration date)

/-- `Array.prototype.map` with the possibly-throwing occurrence callback:
the first throw aborts; an empty instant list never runs the callback. -/
def mapOccurrences (iso : Int → String) (event : CachedEvent) :
    List Int → Except ExpandError (List CachedEvent)
  | [] => .ok []
  | d :: ds => do
    let occ ← mkOccurrence iso event d
    let rest ← mapOccurrences iso event ds
    .ok (occ :: rest)

/-- The `flatMap` body of `expandRelevantEvents` (src/main.ts lines 67-91)
for one event: an event without a recurrence rule passes through as the
single occurrence `[event]`; otherwise the external rule evaluator `ext`
(ts-ics `extendByRecurrenceRule`) is asked for the occurrence instants in
`[now - searchLookbehind, now + searchLookahead]` and each is mapped to an
occurrence.  `iso` is `Date.prototype.toISOString`. -/
def expandEvent (ext : RecurrenceRule → Int × Int → List Int)
    (iso : Int → String) (now : Int) (event : CachedEvent) :
    Except ExpandError (List CachedEvent) :=
  match event.recurrenceRule with
  | none => .ok [event]
  | some rule =>
    let start := now - searchLookbehind
    let «end» := now + searchLookahead
    let recurrences := ext rule (start, «end»)
    mapOccurrences iso event recurrences

/-- `expandRelevantEvents` (src/main.ts lines 66-92): `flatMap` of
`expandEvent` over the event list; an uncaught throw from any event aborts
the whole call. -/
def expandRelevantEvents (ext : RecurrenceRule → Int × Int → List Int)
    (iso : Int → String) (events : List CachedEvent) (now : Int) :
    Except ExpandError (List CachedEvent) :=
  match events with
  | [] => .ok []
  | e :: rest => do
    let occs ← expandEvent ext iso now e
    let others ← expandRelevantEvents ext iso rest now
    .ok (occs ++ others)

/-- The valid time instant stored in a start/end field, if any (observer
used only in theorem statements). -/
def storedTime : Option EventDateObj → Option Int
  | some obj =>
    match obj.date with
    | some (.jsDate (some t)) => some t
    | _ => none
  | none => none

/-- The result of `requestUrl` for one source (src/main.ts line 192):
HTTP status and body text. -/
structure FetchResponse where
  status : Int
  text : String

/-- A raw event as returned by the ICS parser (`convertIcsCalendar`),
before normalization and source tagging. -/
structure IcsEventModel where
  uid : String
  recurrenceId : Option String := none
  summary : Option String := none
  start : Option EventDateObj := none
  «end» : Option EventDateObj := none
  recurrenceRule : Option RecurrenceRule := none
  duration : Option String := none
deriving DecidableEq

/-- The per-event normalization of `refresh` (src/main.ts lines 202-207):
`{ ...event, start: { ...event.start, date: normalizeDate(event.start?.date) },
end: { ...event.end, date: normalizeDate(event.end?.date) },
calendarSource: source }`.  Note the spread always produces start/end
objects, even when the raw event had none. -/
def normalizeEvent (parse : String → Option Int) (source : CalendarSource)
    (event : IcsEventModel) : CachedEvent :=
  { uid := event.uid
    recurrenceId := event.recurrenceId
    summary := event.summary
    start := some { date := (normalizeDate parse (event.start.bind (·.date))).map .jsDate
                    tzid := event.start.bind (·.tzid) }
    «end» := some { date := (normalizeDate parse (event.«end».bind (·.date))).map .jsDate
                    tzid := event.«end».bind (·.tzid) }
    recurrenceRule := event.recurrenceRule
    duration := event.duration
    calendarSource := source }

/-- The source loop of `refresh` (src/main.ts lines 189-210): fetch each
source in order; on a non-200 status or an empty (falsy) body the method
returns early, so the whole refresh yields no new cache (`none`) and every
already-accumulated event is discarded with it. -/
def refreshLoop (fetch : CalendarSource → FetchResponse)
    (parse : String → Option Int)
    (icsParse : String → List IcsEventModel) :
    List CalendarSource → Option (List CachedEvent)
  | [] => some []
  | source :: rest =>
    let res := fetch source
    if res.status ≠ 200 ∨ res.text = "" then none
    else
      (refreshLoop fetch parse icsParse rest).map
        (fun tailEvents =>
          (icsParse res.text).map (normalizeEvent parse source) ++ tailEvents)

/-- `IcalToEventsPlugin.refresh` (src/main.ts lines 180-214): the new cache
contents, or `none` when the method returns without assigning
`settings.cache.events` (no sources configured, or any source failing). -/
def refresh (fetch : CalendarSource → FetchResponse)
    (parse : String → Option Int)
    (icsParse : String → List IcsEventModel)
    (sources : List CalendarSource) : Option (List CachedEvent) :=
  if sources.length = 0 then none
  else refreshLoop fetch parse icsParse sources

/-! ### Concrete collaborators and fixtures for closed-form checks -/

/-- A sign-interleaving injection of the integers into the naturals. -/
def intCode (d : Int) : Nat := if d < 0 then 2 * d.natAbs - 1 else 2 * d.toNat

/-- An injective instant renderer used to instantiate the external
`Date.prototype.toISOString` primitive in concrete checks.  The expansion
theorems rely only on `toISOString` being injective on time values, which
the real primitive is (it renders the millisecond-precision UTC instant). -/
def isoStamp (d : Int) : String := String.mk (List.replicate (intCode d) 'x')

/-- A string-parse primitive for concrete checks: no string parses
(every `new Date(string)` is `NaN`). -/
def noParse : String → Option Int := fun _ => none

/-- A calendar source for fixtures. -/
def sampleSource : CalendarSource := ⟨"cal", "https://example.org/cal.ics"⟩

/-- Ongoing at `now = 50` and at `now = 100`: start 10, end 200. -/
def ongoingEventA : CachedEvent :=
  { uid := "o1"
    start := some ⟨some (.jsDate (some 10)), none⟩
    «end» := some ⟨some (.jsDate (some 200)), none⟩
    calendarSource := sampleSource }

/-- A second ongoing event at `now = 100`: start 20, end 300. -/
def ongoingEventB : CachedEvent :=
  { uid := "o2"
    start := some ⟨some (.jsDate (some 20)), none⟩
    «end» := some ⟨some (.jsDate (some 300)), none⟩
    calendarSource := sampleSource }

/-- Upcoming at `now = 50`: starts 600000 ms (10 minutes) from then. -/
def upcomingEventB : CachedEvent :=
  { uid := "u1"
    start := some ⟨some (.jsDate (some 600050)), none⟩
    «end» := some ⟨some (.jsDate (some 600060)), none⟩
    calendarSource := sampleSource }

/-- A recurring event whose base occurrence (start 1, end 3) is long over
at `now = 100`, while its rule still yields an instant inside the window. -/
def recurringEvent : CachedEvent :=
  { uid := "r1"
    start := some ⟨some (.jsDate (some 1)), none⟩
    «end» := some ⟨some (.jsDate (some 3)), none⟩
    recurrenceRule := some "FREQ=DAILY"
    calendarSource := sampleSource }

/-- A rule evaluator returning the single instant 99 (inside the window
around `now = 100`). -/
def dailyEvaluator : RecurrenceRule → Int × Int → List Int := fun _ _ => [99]

/-- Ended 30 seconds before `now = 60000`: the scorer gives it minute
count `⌊30000 / 60000⌋ = 0`. -/
def justEndedEvent : CachedEvent :=
  { uid := "je"
    start := some ⟨some (.jsDate (some 10000)), none⟩
    «end» := some ⟨some (.jsDate (some 30000)), none⟩
    calendarSource := sampleSource }

/-- First refresh source; its fetch succeeds. -/
def sourceOne : CalendarSource := ⟨"one", "https://one.example/cal.ics"⟩

/-- Second refresh source; its fetch fails with status 500. -/
def sourceTwo : CalendarSource := ⟨"two", "https://two.example/cal.ics"⟩

/-- The raw parsed event served by `sourceOne`. -/
def rawEvent : IcsEventModel :=
  { uid := "e1"
    start := some ⟨some (.jsDate (some 1000)), none⟩
    «end» := some ⟨some (.jsDate (some 2000)), none⟩ }

/-- A fetch collaborator: `sourceOne` succeeds with body "CAL1",
everything else fails with status 500. -/
def fetchTwoFails : CalendarSource → FetchResponse := fun s =>
  if s.url = sourceOne.url then ⟨200, "CAL1"⟩ else ⟨500, "err"⟩

/-- An ICS parser collaborator: the body "CAL1" holds exactly `rawEvent`. -/
def parseCal : String → List IcsEventModel := fun t =>
  if t = "CAL1" then [rawEvent] else []

/-- A recurring event with no `end` field at all: expansion dereferences
`event.end!.date` on it. -/
def malformedRecurring : CachedEvent :=
  { uid := "r2"
    start := some ⟨some (.jsDate (some 1000)), none⟩
    recurrenceRule := some "FREQ=WEEKLY"
    calendarSource := sampleSource }

/-- A recurring series (base start 10, end 25, duration 15) with a
recurrence id. -/
def seriesEvent : CachedEvent :=
  { uid := "series"
    recurrenceId := some "rid"
    start := some ⟨some (.jsDate (some 10)), none⟩
    «end» := some ⟨some (.jsDate (some 25)), none⟩
    recurrenceRule := some "FREQ=DAILY"
    calendarSource := sampleSource }

/-- A rule evaluator returning the two distinct instants 3 and 7. -/
def twoInstants : RecurrenceRule → Int × Int → List Int := fun _ _ => [3, 7]

/-- A small recurring series (base start 5, end 8) for the re-expansion
check. -/
def seriesEventW : CachedEvent :=
  { uid := "w"
    recurrenceId := some "i"
    start := some ⟨some (.jsDate (some 5)), none⟩
    «end» := some ⟨some (.jsDate (some 8)), none⟩
    recurrenceRule := some "FREQ=DAILY"
    calendarSource := sampleSource }

/-- A rule evaluator returning the single instant 1. -/
def oneInstant : RecurrenceRule → Int × Int → List Int := fun _ _ => [1]

/-- The single occurrence `expandRelevantEvents oneInstant isoStamp
[seriesEventW] 0` produces: identity `"i" ++ "-" ++ isoStamp 1 = "i-xx"`,
start 1, end 4, rule and duration cleared. -/
def occW : CachedEvent :=
  { uid := "i-xx"
    recurrenceId := some "i"
    start := some ⟨some (.jsDate (some 1)), none⟩
    «end» := some ⟨some (.jsDate (some 4)), none⟩
    calendarSource := sampleSource }

/-- Valid start 5 and end 3 around `now = 3` (so `end == now` exactly). -/
def boundaryEvent : CachedEvent :=
  { uid := "b"
    start := some ⟨some (.jsDate (some 5)), none⟩
    «end» := some ⟨some (.jsDate (some 3)), none⟩
    calendarSource := sampleSource }

/-- Start exactly at the Unix epoch (time value 0), end at 10; at
`now = 5` it would be ongoing were it scored. -/
def epochStartEvent : CachedEvent :=
  { uid := "z"
    start := some ⟨some (.jsDate (some 0)), none⟩
    «end» := some ⟨some (.jsDate (some 10)), none⟩
    calendarSource := sampleSource }

/-! ### Shared helper lemmas -/

theorem intCode_injective : Function.Injective intCode := by
  intro a b h
  unfold intCode at h
  split_ifs at h <;> omega

theorem isoStamp_injective : Function.Injective isoStamp := by
  intro a b h
  apply intCode_injective
  have hd : (isoStamp a).data = (isoStamp b).data := congrArg String.data h
  simpa [isoStamp] using congrArg List.length hd

theorem string_append_left_cancel {s a b : String} (h : s ++ a = s ++ b) :
    a = b := by
  have hd := congrArg String.data h
  rw [String.data_append, String.data_append] at hd
  exact String.ext (List.append_cancel_left hd)

theorem maxValue_eq_pow : maxValue = 2 ^ 1024 - 2 ^ 971 := by
  unfold maxValue
  norm_num

theorem maxValue_pos : (0 : Int) < maxValue := by
  unfold maxValue
  norm_num

theorem maxValue_large : (1440 : Int) < maxValue := by
  unfold maxValue
  norm_num

theorem fdiv_60000_mono {x y : Int} (h : x ≤ y) :
    x.fdiv 60000 ≤ y.fdiv 60000 := by
  rw [Int.fdiv_eq_ediv _ (by norm_num), Int.fdiv_eq_ediv _ (by norm_num)]
  exact Int.ediv_le_ediv (by norm_num) h

theorem fdiv_60000_le_1440 {x : Int} (h : x ≤ 86400000) :
    x.fdiv 60000 ≤ 1440 := by
  have := fdiv_60000_mono h
  have h2 : (86400000 : Int).fdiv 60000 = 1440 := by decide
  omega

/-- Every relevance value is at most the ongoing sentinel: the minute
counts are bounded by the window (60 for recently ended, 1440 for
upcoming) and `-1` is below it too. -/
theorem eventRelevance_le_maxValue (parse : String → Option Int)
    (event : CachedEvent) (now : Int) :
    eventRelevance parse event now ≤ maxValue := by
  have hmax := maxValue_large
  unfold eventRelevance
  cases timeNum parse event.start with
  | none => simpa using by omega
  | some s =>
    cases timeNum parse event.«end» with
    | none => simpa using by omega
    | some e =>
      simp only
      split_ifs with h0 h1 h2 h3
      · omega
      · exact le_refl maxValue
      · have : (now - e).fdiv 60000 ≤ 1440 := by
          apply fdiv_60000_le_1440
          have : searchLookbehind = 3600000 := rfl
          omega
        omega
      · have : (s - now).fdiv 60000 ≤ 1440 := by
          apply fdiv_60000_le_1440
          have : searchLookahead = 86400000 := rfl
          omega
        omega
      · omega

/-- Every pair surviving to the sorted stage of the pipeline carries the
relevance of its own event as its key. -/
theorem scored_pair_snd (parse : String → Option Int)
    (events : List CachedEvent) (now : Int) (p : CachedEvent × Int)
    (hp : p ∈ ((events.map
        (fun evnt => (evnt, eventRelevance parse evnt now))).filter
        (fun q => decide (q.2 > 0))).insertionSort relLE) :
    p.2 = eventRelevance parse p.1 now := by
  have h1 : p ∈ (events.map
      (fun evnt => (evnt, eventRelevance parse evnt now))).filter
      (fun q => decide (q.2 > 0)) :=
    (List.perm_insertionSort relLE _).mem_iff.mp hp
  have h2 := List.mem_of_mem_filter h1
  obtain ⟨e, -, rfl⟩ := List.mem_map.mp h2
  rfl

/-! ### C8: the instant normalizer's contract -/

/-- C8 (counterexample): an Invalid Date — a native `Date` whose time value
is `NaN`, hence not a valid instant — is not degraded to `undefined` as the
claim's "in every other case" requires: the first branch of `normalizeDate`
returns any `Date` input as-is, Invalid Dates included. -/
theorem normalizeDate_invalid_date_counterexample :
    normalizeDate noParse (some (.jsDate none)) = some none ∧
    (some none : Option (Option Int)) ≠ none :=
  ⟨rfl, by decide⟩

/-- C8 (amended): the normalizer is total and never raises; it returns the
input itself for every native `Date` input — valid or Invalid, the Invalid
Date passing through as-is rather than becoming `undefined` —, the parsed
instant for a string whose parse is a valid (non-NaN) instant, and
`undefined` for every other input (unparseable strings, absent input). -/
theorem normalizeDate_contract (parse : String → Option Int)
    (t : Option Int) (s : String) :
    normalizeDate parse (some (.jsDate t)) = some t ∧
    normalizeDate parse (some (.str s)) = (parse s).map some ∧
    normalizeDate parse none = none := by
  refine ⟨rfl, ?_, rfl⟩
  cases hps : parse s <;> simp [normalizeDate, hps]

/-! ### C10: the falsy guard swallows the epoch instant -/

/-- C10: an occurrence whose normalized start or end has time value exactly
0 (the Unix epoch) is scored with the "not relevant" sentinel `-1` for
every `now`, because the `!start || !end` guard treats the falsy number 0
like an absent instant. -/
theorem relevance_epoch_zero_guard (parse : String → Option Int)
    (event : CachedEvent) (now : Int)
    (h : timeNum parse event.start = some 0 ∨
         timeNum parse event.«end» = some 0) :
    eventRelevance parse event now = -1 := by
  unfold eventRelevance
  rcases h with h | h
  · rw [h]
    cases timeNum parse event.«end» with
    | none => rfl
    | some e => simp
  · cases hs : timeNum parse event.start with
    | none => rfl
    | some s =>
      rw [h]
      simp

/-- C10 witness: at `now = 5` the epoch-start event (start 0, end 10) would
be ongoing, yet it is scored `-1`. -/
theorem relevance_epoch_zero_guard_witness :
    eventRelevance noParse epochStartEvent 5 = -1 :=
  relevance_epoch_zero_guard noParse epochStartEvent 5 (Or.inl rfl)

/-! ### C9: strict and inclusive classification boundaries -/

/-- C9: with valid nonzero start/end instants: an occurrence with
`end == now` is never scored as ongoing (`end > now` is strict); with
`start == now` the upcoming branch can never fire (the score is the
recently-ended value or the sentinel, `start > now` being strict); the
window cutoffs are inclusive: `end == now - 1h` still scores 60 minutes
(recently ended) and `start == now + 24h` still scores 1440 minutes
(upcoming). -/
theorem relevance_strict_boundaries (parse : String → Option Int)
    (event : CachedEvent) (now s e' : Int)
    (hs : timeNum parse event.start = some s)
    (he : timeNum parse event.«end» = some e')
    (hs0 : s ≠ 0) (he0 : e' ≠ 0) :
    (e' = now → eventRelevance parse event now ≠ maxValue) ∧
    (s = now → eventRelevance parse event now =
      if e' < now ∧ e' ≥ now - searchLookbehind
      then (now - e').fdiv 60000 else -1) ∧
    (e' = now - searchLookbehind → eventRelevance parse event now = 60) ∧
    (s = now + searchLookahead → now ≤ e' →
      eventRelevance parse event now = 1440) := by
  have hrel : eventRelevance parse event now =
      if s < now ∧ e' > now then maxValue
      else if e' < now ∧ e' ≥ now - searchLookbehind then (now - e').fdiv 60000
      else if s > now ∧ s ≤ now + searchLookahead then (s - now).fdiv 60000
      else -1 := by
    unfold eventRelevance
    rw [hs, he]
    simp only
    rw [if_neg (by tauto)]
  have hlb : searchLookbehind = 3600000 := rfl
  have hla : searchLookahead = 86400000 := rfl
  have hmaxL := maxValue_large
  have hmaxP := maxValue_pos
  refine ⟨?_, ?_, ?_, ?_⟩
  · rintro rfl
    rw [hrel, if_neg (fun h => lt_irrefl _ h.2),
      if_neg (fun h => lt_irrefl _ h.1)]
    split_ifs with h
    · have hb : (s - e').fdiv 60000 ≤ 1440 := fdiv_60000_le_1440 (by omega)
      omega
    · omega
  · rintro rfl
    rw [hrel, if_neg (fun h => lt_irrefl _ h.1)]
    by_cases hcond : e' < s ∧ e' ≥ s - searchLookbehind
    · rw [if_pos hcond, if_pos hcond]
    · rw [if_neg hcond, if_neg hcond, if_neg (fun h => lt_irrefl _ h.1)]
  · rintro rfl
    rw [hrel, if_neg (by omega), if_pos (by omega)]
    have harg : now - (now - searchLookbehind) = 3600000 := by omega
    rw [harg]
    decide
  · rintro rfl
    intro hle
    rw [hrel, if_neg (by omega), if_neg (by omega), if_pos (by omega)]
    have harg : now + searchLookahead - now = 86400000 := by omega
    rw [harg]
    decide

/-- C9 witness: `boundaryEvent` has start 5 and end 3; at `now = 3` the
`end == now` case is exercised (the occurrence is not scored ongoing). -/
theorem relevance_strict_boundaries_witness :
    ((3 : Int) = 3 → eventRelevance noParse boundaryEvent 3 ≠ maxValue) ∧
    ((5 : Int) = 3 → eventRelevance noParse boundaryEvent 3 =
      if (3 : Int) < 3 ∧ (3 : Int) ≥ 3 - searchLookbehind
      then ((3 : Int) - 3).fdiv 60000 else -1) ∧
    ((3 : Int) = 3 - searchLookbehind →
      eventRelevance noParse boundaryEvent 3 = 60) ∧
    ((5 : Int) = 3 + searchLookahead → (3 : Int) ≤ 3 →
      eventRelevance noParse boundaryEvent 3 = 1440) :=
  relevance_strict_boundaries noParse boundaryEvent 3 5 3 rfl rfl
    (by decide) (by decide)

/-! ### C1: position of ongoing occurrences in the final order -/

/-- C1 (counterexample): the ongoing occurrence does not precede the
upcoming one.  At `now = 50`, `ongoingEventA` is ongoing (relevance
`Number.MAX_VALUE`) and `upcomingEventB` is upcoming (relevance 10); the
ascending sort puts the maximal sentinel last, so the pipeline returns the
upcoming event first and the ongoing event last — the sentinel is forced to
the back, not the front. -/
theorem relevantEvents_ongoing_first_counterexample :
    eventRelevance noParse ongoingEventA 50 = maxValue ∧
    eventRelevance noParse upcomingEventB 50 = 10 ∧
    relevantEvents noParse [ongoingEventA, upcomingEventB] 50
      = [upcomingEventB, ongoingEventA] ∧
    upcomingEventB ≠ ongoingEventA :=
  ⟨rfl, rfl, rfl, by decide⟩

/-- C1 (amended): in the final ordered list, every ongoing occurrence
follows every recently-ended and upcoming occurrence: the ongoing sentinel
`Number.MAX_VALUE` is the numeric maximum of all relevance values and the
sort is ascending, so the ongoing occurrences form a suffix — once an entry
of the output is ongoing, every later entry is ongoing too. -/
theorem relevantEvents_ongoing_sorts_last (parse : String → Option Int)
    (events : List CachedEvent) (now : Int) (i j : Nat)
    (hi : i < (relevantEvents parse events now).length)
    (hj : j < (relevantEvents parse events now).length)
    (hij : i < j)
    (hOng : eventRelevance parse
      ((relevantEvents parse events now).get ⟨i, hi⟩) now = maxValue) :
    eventRelevance parse
      ((relevantEvents parse events now).get ⟨j, hj⟩) now = maxValue := by
  have hre : relevantEvents parse events now
      = (((events.map (fun evnt => (evnt, eventRelevance parse evnt now))).filter
          (fun q => decide (q.2 > 0))).insertionSort relLE).map Prod.fst := rfl
  have hi' : i < (((events.map
      (fun evnt => (evnt, eventRelevance parse evnt now))).filter
      (fun q => decide (q.2 > 0))).insertionSort relLE).length := by
    rw [hre, List.length_map] at hi
    exact hi
  have hj' : j < (((events.map
      (fun evnt => (evnt, eventRelevance parse evnt now))).filter
      (fun q => decide (q.2 > 0))).insertionSort relLE).length := by
    rw [hre, List.length_map] at hj
    exact hj
  have hgi : (relevantEvents parse events now).get ⟨i, hi⟩
      = ((((events.map (fun evnt => (evnt, eventRelevance parse evnt now))).filter
        (fun q => decide (q.2 > 0))).insertionSort relLE).get ⟨i, hi'⟩).1 := by
    simp [hre, List.get_eq_getElem]
  have hgj : (relevantEvents parse events now).get ⟨j, hj⟩
      = ((((events.map (fun evnt => (evnt, eventRelevance parse evnt now))).filter
        (fun q => decide (q.2 > 0))).insertionSort relLE).get ⟨j, hj'⟩).1 := by
    simp [hre, List.get_eq_getElem]
  have hsorted : List.Sorted relLE (((events.map
      (fun evnt => (evnt, eventRelevance parse evnt now))).filter
      (fun q => decide (q.2 > 0))).insertionSort relLE) :=
    List.sorted_insertionSort relLE _
  have hle := hsorted.rel_get_of_lt
    (a := ⟨i, hi'⟩) (b := ⟨j, hj'⟩) (Fin.mk_lt_mk.mpr hij)
  have hkey_i := scored_pair_snd parse events now _ (List.get_mem _ i hi')
  have hkey_j := scored_pair_snd parse events now _ (List.get_mem _ j hj')
  have hbound := eventRelevance_le_maxValue parse
    ((((events.map (fun evnt => (evnt, eventRelevance parse evnt now))).filter
      (fun q => decide (q.2 > 0))).insertionSort relLE).get ⟨j, hj'⟩).1 now
  rw [hgi] at hOng
  rw [hgj]
  have hle2 : ((((events.map (fun evnt => (evnt, eventRelevance parse evnt now))).filter
      (fun q => decide (q.2 > 0))).insertionSort relLE).get ⟨i, hi'⟩).2
      ≤ ((((events.map (fun evnt => (evnt, eventRelevance parse evnt now))).filter
      (fun q => decide (q.2 > 0))).insertionSort relLE).get ⟨j, hj'⟩).2 := hle
  omega

/-- C1 witness: two simultaneously ongoing events occupy positions 0 and 1
of the output; the theorem applied at `i = 0 < j = 1` confirms the later
entry is ongoing as well. -/
theorem relevantEvents_ongoing_sorts_last_witness :
    eventRelevance noParse
      ((relevantEvents noParse [ongoingEventA, ongoingEventB] 100).get
        ⟨1, by decide⟩) 100 = maxValue :=
  relevantEvents_ongoing_sorts_last noParse [ongoingEventA, ongoingEventB]
    100 0 1 (by decide) (by decide) (by decide) (by decide)

/-! ### C3: which occurrences the pipeline keeps -/

/-- C3 (counterexample): an occurrence that ended 30 seconds before `now`
is classified recently-ended with minute count 0, yet the pipeline's
`relevance > 0` filter drops it — the claim says every recently-ended
occurrence, including one with minute count 0, is included. -/
theorem zero_minute_dropped_counterexample :
    eventRelevance noParse justEndedEvent 60000 = 0 ∧
    relevantEvents noParse [justEndedEvent] 60000 = [] :=
  ⟨rfl, rfl⟩

/-- Projecting the scored-and-filtered pairs back to events is the same as
filtering the events by positive relevance directly. -/
theorem map_fst_scored_filter (parse : String → Option Int) (now : Int) :
    ∀ events : List CachedEvent,
      ((events.map (fun evnt => (evnt, eventRelevance parse evnt now))).filter
          (fun q => decide (q.2 > 0))).map Prod.fst
        = events.filter (fun evnt => decide (eventRelevance parse evnt now > 0))
  | [] => rfl
  | e :: es => by
    by_cases h : eventRelevance parse e now > 0 <;>
      simp [List.filter_cons, h, map_fst_scored_filter parse now es]

/-- C3 (amended): the pipeline keeps exactly the occurrences with strictly
positive relevance — the output is a permutation (the sort's reordering) of
the cache filtered by `relevance > 0`.  Occurrences scored 0 (ended, or
starting, less than one minute from `now`) are dropped together with the
`-1` "not relevant" sentinel; ongoing, and all occurrences with minute
count at least 1, are kept. -/
theorem relevantEvents_perm_filter_positive (parse : String → Option Int)
    (events : List CachedEvent) (now : Int) :
    (relevantEvents parse events now).Perm
      (events.filter (fun evnt => decide (eventRelevance parse evnt now > 0))) := by
  unfold relevantEvents
  refine ((List.perm_insertionSort relLE _).map Prod.fst).trans ?_
  rw [map_fst_scored_filter]

/-! ### C2: the pipeline never expands recurring events -/

/-- C2: the create-note-from-event pipeline scores the raw cached events and
never calls `expandRelevantEvents` (which is dead code in src/main.ts).
`recurringEvent`'s base occurrence is long over at `now = 100`, so the
pipeline shows nothing for it — yet expanding it yields an occurrence
(instant 99, inside the window) that would be ongoing, with relevance
`Number.MAX_VALUE`. -/
theorem pipeline_never_expands :
    relevantEvents noParse [recurringEvent] 100 = [] ∧
    (expandRelevantEvents dailyEvaluator isoStamp [recurringEvent] 100).map
        (List.map (fun occ => eventRelevance noParse occ 100))
      = .ok [maxValue] :=
  ⟨rfl, rfl⟩

/-! ### C4: one failing source aborts the whole refresh -/

/-- C4: `sourceOne`'s fetch succeeds with one event, `sourceTwo`'s fails
with status 500.  Refreshing both sources returns early without updating
the cache at all (`none`) — `sourceOne`'s events are lost with it — while
refreshing `sourceOne` alone stores its normalized event. -/
theorem refresh_aborts_on_single_failure :
    refresh fetchTwoFails noParse parseCal [sourceOne, sourceTwo] = none ∧
    refresh fetchTwoFails noParse parseCal [sourceOne]
      = some [normalizeEvent noParse sourceOne rawEvent] :=
  ⟨rfl, rfl⟩

/-! ### C5: expansion of a recurring event with a missing base date -/

/-- C5: expanding a recurring event whose `end` field is absent throws: the
occurrence callback dereferences `event.end!.date` unguarded, so the whole
expansion aborts with a TypeError instead of skipping the event. -/
theorem expand_throws_on_missing_end :
    expandRelevantEvents dailyEvaluator isoStamp [malformedRecurring] 100
      = .error .typeError :=
  rfl

/-! ### Expansion machinery lemmas -/

theorem storedTime_getTime {f : Option EventDateObj} {t : Int}
    (h : storedTime f = some t) : getTimeUnchecked f = .ok (some t) := by
  cases f with
  | none => simp [storedTime] at h
  | some obj =>
    cases hd : obj.date with
    | none => simp [storedTime, hd] at h
    | some dv =>
      cases dv with
      | str s => simp [storedTime, hd] at h
      | jsDate ti =>
        cases ti with
        | none => simp [storedTime, hd] at h
        | some x =>
          simp [storedTime, hd] at h
          simp [getTimeUnchecked, hd, h]

theorem mkOccurrence_ok (iso : Int → String) (event : CachedEvent)
    {s' e' : Int} (hs : storedTime event.start = some s')
    (he : storedTime event.«end» = some e') (d : Int) :
    mkOccurrence iso event d
      = .ok (occurrenceOf iso event (some (e' - s')) d) := by
  unfold mkOccurrence
  rw [storedTime_getTime he, storedTime_getTime hs]
  rfl

theorem mapOccurrences_ok (iso : Int → String) (event : CachedEvent)
    {s' e' : Int} (hs : storedTime event.start = some s')
    (he : storedTime event.«end» = some e') :
    ∀ ds : List Int, mapOccurrences iso event ds
      = .ok (ds.map (occurrenceOf iso event (some (e' - s'))))
  | [] => rfl
  | d :: ds => by
    unfold mapOccurrences
    rw [mkOccurrence_ok iso event hs he d, mapOccurrences_ok iso event hs he ds]
    rfl

theorem expandEvent_ok (ext : RecurrenceRule → Int × Int → List Int)
    (iso : Int → String) (now : Int) (event : CachedEvent)
    (rule : RecurrenceRule) {s' e' : Int}
    (hrule : event.recurrenceRule = some rule)
    (hs : storedTime event.start = some s')
    (he : storedTime event.«end» = some e') :
    expandEvent ext iso now event
      = .ok ((ext rule (now - searchLookbehind, now + searchLookahead)).map
          (occurrenceOf iso event (some (e' - s')))) := by
  unfold expandEvent
  rw [hrule]
  exact mapOccurrences_ok iso event hs he _

theorem expandRelevantEvents_single (ext : RecurrenceRule → Int × Int → List Int)
    (iso : Int → String) (event : CachedEvent) (now : Int)
    (occs : List CachedEvent)
    (h : expandEvent ext iso now event = .ok occs) :
    expandRelevantEvents ext iso [event] now = .ok occs := by
  have hdef : expandRelevantEvents ext iso [event] now
      = (expandEvent ext iso now event) >>= (fun occs => Except.ok (occs ++ [])) :=
    rfl
  rw [hdef, h]
  show Except.ok (occs ++ []) = Except.ok occs
  rw [List.append_nil]

theorem occurrenceOf_storedTime_start (iso : Int → String)
    (event : CachedEvent) (x d : Int) :
    storedTime (occurrenceOf iso event (some x) d).start = some d := rfl

theorem occurrenceOf_storedTime_end (iso : Int → String)
    (event : CachedEvent) (x d : Int) :
    storedTime (occurrenceOf iso event (some x) d).«end» = some (d + x) := rfl

theorem occurrenceOf_uid (iso : Int → String) (event : CachedEvent)
    (dur : Option Int) (d : Int) :
    (occurrenceOf iso event dur d).uid
      = (event.recurrenceId.getD event.uid) ++ "-" ++ iso d := rfl

theorem mkOccurrence_fields {iso : Int → String} {event : CachedEvent}
    {d : Int} {o : CachedEvent} (h : mkOccurrence iso event d = .ok o) :
    o.recurrenceRule = none ∧ o.duration = none := by
  unfold mkOccurrence at h
  cases hE : getTimeUnchecked event.«end» with
  | error e =>
    rw [hE] at h
    simp [Bind.bind, Except.bind] at h
  | ok te =>
    cases hS : getTimeUnchecked event.start with
    | error e =>
      rw [hE, hS] at h
      simp [Bind.bind, Except.bind] at h
    | ok ts =>
      rw [hE, hS] at h
      simp [Bind.bind, Except.bind] at h
      rw [← h]
      exact ⟨rfl, rfl⟩

theorem mapOccurrences_fields {iso : Int → String} {event : CachedEvent} :
    ∀ {ds : List Int} {occs : List CachedEvent},
      mapOccurrences iso event ds = .ok occs →
      ∀ o ∈ occs, o.recurrenceRule = none ∧ o.duration = none := by
  intro ds
  induction ds with
  | nil =>
    intro occs h o ho
    unfold mapOccurrences at h
    injection h with h'
    rw [← h'] at ho
    simp at ho
  | cons d ds ih =>
    intro occs h o ho
    unfold mapOccurrences at h
    cases h1 : mkOccurrence iso event d with
    | error e =>
      rw [h1] at h
      simp [Bind.bind, Except.bind] at h
    | ok occ =>
      cases h2 : mapOccurrences iso event ds with
      | error e =>
        rw [h1, h2] at h
        simp [Bind.bind, Except.bind] at h
      | ok rest =>
        rw [h1, h2] at h
        simp [Bind.bind, Except.bind] at h
        rw [← h] at ho
        rcases List.mem_cons.mp ho with rfl | hrest
        · exact mkOccurrence_fields h1
        · exact ih h2 o hrest

theorem expandEvent_rule_none {ext : RecurrenceRule → Int × Int → List Int}
    {iso : Int → String} {now : Int} {event : CachedEvent}
    {occs : List CachedEvent}
    (h : expandEvent ext iso now event = .ok occs) :
    ∀ o ∈ occs, o.recurrenceRule = none := by
  unfold expandEvent at h
  cases hr : event.recurrenceRule with
  | none =>
    rw [hr] at h
    simp only [] at h
    injection h with h'
    intro o ho
    rw [← h'] at ho
    rw [List.mem_singleton] at ho
    subst ho
    exact hr
  | some rule =>
    rw [hr] at h
    intro o ho
    exact (mapOccurrences_fields h o ho).1

theorem expandRelevantEvents_rule_none
    {ext : RecurrenceRule → Int × Int → List Int} {iso : Int → String}
    {now : Int} :
    ∀ {events out : List CachedEvent},
      expandRelevantEvents ext iso events now = .ok out →
      ∀ o ∈ out, o.recurrenceRule = none := by
  intro events
  induction events with
  | nil =>
    intro out h o ho
    unfold expandRelevantEvents at h
    injection h with h'
    rw [← h'] at ho
    simp at ho
  | cons e rest ih =>
    intro out h o ho
    unfold expandRelevantEvents at h
    cases h1 : expandEvent ext iso now e with
    | error err =>
      rw [h1] at h
      simp [Bind.bind, Except.bind] at h
    | ok occs =>
      cases h2 : expandRelevantEvents ext iso rest now with
      | error err =>
        rw [h1, h2] at h
        simp [Bind.bind, Except.bind] at h
      | ok others =>
        rw [h1, h2] at h
        simp [Bind.bind, Except.bind] at h
        rw [← h] at ho
        rcases List.mem_append.mp ho with hl | hr2
        · exact expandEvent_rule_none h1 o hl
        · exact ih h2 o hr2

theorem expandRelevantEvents_fixed
    {ext : RecurrenceRule → Int × Int → List Int} {iso : Int → String}
    {now : Int} :
    ∀ {out : List CachedEvent},
      (∀ o ∈ out, o.recurrenceRule = none) →
      expandRelevantEvents ext iso out now = .ok out := by
  intro out
  induction out with
  | nil => intro _; rfl
  | cons o rest ih =>
    intro hall
    have ho : o.recurrenceRule = none := hall o (List.mem_cons_self o rest)
    have hrest := ih (fun x hx => hall x (List.mem_cons_of_mem o hx))
    unfold expandRelevantEvents
    have he : expandEvent ext iso now o = .ok [o] := by
      unfold expandEvent
      rw [ho]
    rw [he, hrest]
    rfl

/-! ### C6: duration preservation and distinct identities -/

/-- C6: for a recurring event with valid base start `s'` and end `e'`
(duration `e' - s'`), expansion returns exactly one occurrence per instant
the rule evaluator yields: the occurrence count equals the instant count,
every occurrence satisfies `end - start = e' - s'`, and — whenever the
evaluator's instants are pairwise distinct and `toISOString` is injective —
the identities `(recurrenceId ?? uid) + "-" + ISO(instant)` are pairwise
distinct. -/
theorem expand_duration_and_identities
    (ext : RecurrenceRule → Int × Int → List Int) (iso : Int → String)
    (event : CachedEvent) (now : Int) (rule : RecurrenceRule) (s' e' : Int)
    (hrule : event.recurrenceRule = some rule)
    (hs : storedTime event.start = some s')
    (he : storedTime event.«end» = some e')
    (hiso : Function.Injective iso) :
    (expandRelevantEvents ext iso [event] now).map List.length
      = .ok (ext rule (now - searchLookbehind, now + searchLookahead)).length ∧
    (expandRelevantEvents ext iso [event] now).map
        (List.map (fun o => jsSub (storedTime o.«end») (storedTime o.start)))
      = .ok (List.replicate
          (ext rule (now - searchLookbehind, now + searchLookahead)).length
          (some (e' - s'))) ∧
    ((ext rule (now - searchLookbehind, now + searchLookahead)).Nodup →
      (expandRelevantEvents ext iso [event] now).map
          (fun occs => decide (occs.map (fun o => o.uid)).Nodup)
        = .ok true) := by
  have hx := expandRelevantEvents_single ext iso event now _
    (expandEvent_ok ext iso now event rule hrule hs he)
  refine ⟨?_, ?_, ?_⟩
  · rw [hx]
    simp [Except.map]
  · rw [hx]
    simp only [Except.map, List.map_map, Function.comp_def]
    have hpt : ∀ d : Int,
        jsSub (storedTime (occurrenceOf iso event (some (e' - s')) d).«end»)
          (storedTime (occurrenceOf iso event (some (e' - s')) d).start)
          = some (e' - s') := by
      intro d
      rw [occurrenceOf_storedTime_start, occurrenceOf_storedTime_end]
      simp [jsSub]
    rw [List.map_congr_left (fun d _ => hpt d), List.map_const']
  · intro hnd
    rw [hx]
    simp only [Except.map, List.map_map, Function.comp_def]
    rw [Except.ok.injEq, decide_eq_true_eq]
    have huid : ∀ d : Int,
        ((occurrenceOf iso event (some (e' - s'))) d).uid
          = (event.recurrenceId.getD event.uid) ++ "-" ++ iso d :=
      fun d => occurrenceOf_uid iso event (some (e' - s')) d
    rw [List.map_congr_left (fun d _ => huid d)]
    have hinj : Function.Injective
        (fun d : Int => (event.recurrenceId.getD event.uid) ++ "-" ++ iso d) :=
      fun a b hab => hiso (string_append_left_cancel hab)
    exact List.Nodup.map hinj hnd

/-- C6 witness: the series event (base start 10, end 25) expanded at the
two distinct instants 3 and 7 yields two occurrences of duration 15 with
distinct identities. -/
theorem expand_duration_and_identities_witness :
    (expandRelevantEvents twoInstants isoStamp [seriesEvent] 0).map List.length
      = .ok (twoInstants "FREQ=DAILY" (0 - searchLookbehind, 0 + searchLookahead)).length ∧
    (expandRelevantEvents twoInstants isoStamp [seriesEvent] 0).map
        (List.map (fun o => jsSub (storedTime o.«end») (storedTime o.start)))
      = .ok (List.replicate
          (twoInstants "FREQ=DAILY" (0 - searchLookbehind, 0 + searchLookahead)).length
          (some (25 - 10))) ∧
    ((twoInstants "FREQ=DAILY" (0 - searchLookbehind, 0 + searchLookahead)).Nodup →
      (expandRelevantEvents twoInstants isoStamp [seriesEvent] 0).map
          (fun occs => decide (occs.map (fun o => o.uid)).Nodup)
        = .ok true) :=
  expand_duration_and_identities twoInstants isoStamp seriesEvent 0
    "FREQ=DAILY" 10 25 rfl rfl rfl isoStamp_injective

/-! ### C7: occurrences are never expandable again -/

/-- C7: every occurrence produced by expanding a recurring event has its
recurrence rule and its series-level duration field cleared, and the
expander is idempotent on its own output: re-expanding any successful
result returns it unchanged (each occurrence passes through the no-rule
branch as a single occurrence). -/
theorem expand_clears_recurrence
    (ext : RecurrenceRule → Int × Int → List Int) (iso : Int → String)
    (now : Int) (events out : List CachedEvent) (event : CachedEvent)
    (rule : RecurrenceRule) (occs : List CachedEvent)
    (hall : expandRelevantEvents ext iso events now = .ok out)
    (hrule : event.recurrenceRule = some rule)
    (hocc : expandEvent ext iso now event = .ok occs) :
    occs.all (fun o =>
      decide (o.recurrenceRule = none ∧ o.duration = none)) = true ∧
    expandRelevantEvents ext iso out now = .ok out := by
  constructor
  · rw [List.all_eq_true]
    intro o ho
    rw [decide_eq_true_eq]
    have h : mapOccurrences iso event
        (ext rule (now - searchLookbehind, now + searchLookahead)) = .ok occs := by
      unfold expandEvent at hocc
      rw [hrule] at hocc
      exact hocc
    exact mapOccurrences_fields h o ho
  · exact expandRelevantEvents_fixed (expandRelevantEvents_rule_none hall)

/-- C7 witness: the small series expands to the single occurrence `occW`,
whose rule and duration are cleared and which re-expands to itself. -/
theorem expand_clears_recurrence_witness :
    List.all [occW] (fun o =>
      decide (o.recurrenceRule = none ∧ o.duration = none)) = true ∧
    expandRelevantEvents oneInstant isoStamp [occW] 0 = .ok [occW] :=
  expand_clears_recurrence oneInstant isoStamp 0 [seriesEventW] [occW]
    seriesEventW "FREQ=DAILY" [occW] rfl rfl rfl

end IcalEventNotes
